import Mathlib

/-!
Shallow embedding of `src/process_analyzer.py` (functions `compute_kpis` and
`analyze_dataframe`) over explicit lists of rows.

Modelling conventions:
* A pandas DataFrame is a `Table`: three flags recording which of the columns
  `case_id`, `step`, `timestamp` exist, plus a list of rows.
* A cell may be null (pandas `NaN`/`NaT`), hence every field of `Row` is an
  `Option`.  The `ts` field models the value of the timestamp cell after
  `pd.to_datetime(..., errors="coerce")`: `some t` (epoch seconds) when the raw
  value parses, `none` (`NaT`) when the cell is missing or unparsable.  When
  `hasTimestamp = false` the `ts` fields model a column that does not exist and
  every operation ignores them.
* `sort_values` with a list of several keys uses `np.lexsort`, a stable sort,
  with `na_position="last"`; we model it by the stable `List.insertionSort`
  under the corresponding total preorder (every stable sort of a list under a
  fixed total preorder yields the same output).  Single-key sorts — the
  `sort_values(["case_id"])` fallback of the no-timestamp branch, the
  descending sort inside `value_counts`, and `sort_values("mean")` — use the
  pandas default `kind="quicksort"`, which is NOT stable: their tie order is
  implementation-defined.  To stay executable the embedding fixes their tie
  order to the stable (first-seen) choice; no theorem below depends on that
  choice: everything proved about the results of these sorts (descending
  order, element content, sums, lengths, membership) holds for every correct
  sorting of the same keys, stable or not.
* Python float arithmetic on hour values is modelled by exact rationals; the
  claims under study never depend on IEEE representation error.  `round(x, 2)`
  is modelled by round-half-to-even at two decimals over `ℚ`.
-/

namespace ProcessAnalyzer

open scoped List

/-- One row of the input table.  Every field is optional because a pandas cell
may be null; `ts` is the timestamp cell after coercion (see module docstring). -/
structure Row where
  case_id : Option String
  step : Option String
  ts : Option Int
deriving DecidableEq, Repr

/-- The input DataFrame: which columns exist, and the rows. -/
structure Table where
  hasCaseId : Bool
  hasStep : Bool
  hasTimestamp : Bool
  rows : List Row
deriving DecidableEq, Repr

/-! ### Sort keys

`sort_values(["case_id", "timestamp"])` and `sort_values(["case_id"])` order
rows by the given keys ascending with nulls last (`na_position="last"`). -/

/-- Strict order on an optional string key: nulls sort after every value. -/
def OptStrLT : Option String → Option String → Prop
  | some a, some b => a < b
  | some _, none => True
  | none, _ => False

instance (x y : Option String) : Decidable (OptStrLT x y) :=
  match x, y with
  | some a, some b => inferInstanceAs (Decidable (a < b))
  | some _, none => inferInstanceAs (Decidable True)
  | none, some _ => inferInstanceAs (Decidable False)
  | none, none => inferInstanceAs (Decidable False)

/-- Weak order on an optional integer key: nulls sort after every value and
tie with each other. -/
def OptIntLE : Option Int → Option Int → Prop
  | some a, some b => a ≤ b
  | some _, none => True
  | none, some _ => False
  | none, none => True

instance (x y : Option Int) : Decidable (OptIntLE x y) :=
  match x, y with
  | some a, some b => inferInstanceAs (Decidable (a ≤ b))
  | some _, none => inferInstanceAs (Decidable True)
  | none, some _ => inferInstanceAs (Decidable False)
  | none, none => inferInstanceAs (Decidable True)

/-- Row order used by `sort_values(["case_id", "timestamp"])`: lexicographic on
the case key then the timestamp key. -/
def RowTsLE (a b : Row) : Prop :=
  OptStrLT a.case_id b.case_id ∨ (a.case_id = b.case_id ∧ OptIntLE a.ts b.ts)

instance : DecidableRel RowTsLE := fun a b =>
  inferInstanceAs (Decidable (OptStrLT a.case_id b.case_id ∨
    (a.case_id = b.case_id ∧ OptIntLE a.ts b.ts)))

/-- Row order used by `sort_values(["case_id"])`: the case key alone. -/
def RowCaseLE (a b : Row) : Prop :=
  OptStrLT a.case_id b.case_id ∨ a.case_id = b.case_id

instance : DecidableRel RowCaseLE := fun a b =>
  inferInstanceAs (Decidable (OptStrLT a.case_id b.case_id ∨ a.case_id = b.case_id))

instance : IsTrans Row RowTsLE :=
  ⟨fun a b c h1 h2 => by
    have ltt : ∀ {x y z : Option String}, OptStrLT x y → OptStrLT y z → OptStrLT x z := by
      intro x y z hx hy
      match x, y, z, hx, hy with
      | some _, some _, some _, hx, hy => exact lt_trans hx hy
      | some _, some _, none, _, _ => trivial
      | some _, none, some _, _, hy => exact hy.elim
      | some _, none, none, _, hy => exact hy.elim
      | none, _, _, hx, _ => exact hx.elim
    have ilet : ∀ {x y z : Option Int}, OptIntLE x y → OptIntLE y z → OptIntLE x z := by
      intro x y z hx hy
      match x, y, z, hx, hy with
      | some _, some _, some _, hx, hy => exact le_trans hx hy
      | some _, some _, none, _, _ => trivial
      | some _, none, some _, _, hy => exact hy.elim
      | some _, none, none, _, _ => trivial
      | none, some _, _, hx, _ => exact hx.elim
      | none, none, some _, _, hy => exact hy.elim
      | none, none, none, _, _ => trivial
    rcases h1 with h1 | ⟨e1, u1⟩ <;> rcases h2 with h2 | ⟨e2, u2⟩
    · exact Or.inl (ltt h1 h2)
    · exact Or.inl (by rw [← e2]; exact h1)
    · exact Or.inl (by rw [e1]; exact h2)
    · exact Or.inr ⟨e1.trans e2, ilet u1 u2⟩⟩

instance : IsTotal Row RowTsLE :=
  ⟨fun a b => by
    have tri : ∀ (x y : Option String), OptStrLT x y ∨ x = y ∨ OptStrLT y x := by
      intro x y
      match x, y with
      | some u, some v =>
        rcases lt_trichotomy u v with h | h | h
        · exact Or.inl h
        · exact Or.inr (Or.inl (by rw [h]))
        · exact Or.inr (Or.inr h)
      | some _, none => exact Or.inl trivial
      | none, some _ => exact Or.inr (Or.inr trivial)
      | none, none => exact Or.inr (Or.inl rfl)
    have tot : ∀ (x y : Option Int), OptIntLE x y ∨ OptIntLE y x := by
      intro x y
      match x, y with
      | some u, some v => exact le_total u v
      | some _, none => exact Or.inl trivial
      | none, some _ => exact Or.inr trivial
      | none, none => exact Or.inl trivial
    rcases tri a.case_id b.case_id with h | h | h
    · exact Or.inl (Or.inl h)
    · rcases tot a.ts b.ts with h2 | h2
      · exact Or.inl (Or.inr ⟨h, h2⟩)
      · exact Or.inr (Or.inr ⟨h.symm, h2⟩)
    · exact Or.inr (Or.inl h)⟩

instance : IsTrans Row RowCaseLE :=
  ⟨fun a b c h1 h2 => by
    have ltt : ∀ {x y z : Option String}, OptStrLT x y → OptStrLT y z → OptStrLT x z := by
      intro x y z hx hy
      match x, y, z, hx, hy with
      | some _, some _, some _, hx, hy => exact lt_trans hx hy
      | some _, some _, none, _, _ => trivial
      | some _, none, some _, _, hy => exact hy.elim
      | some _, none, none, _, hy => exact hy.elim
      | none, _, _, hx, _ => exact hx.elim
    rcases h1 with h1 | e1 <;> rcases h2 with h2 | e2
    · exact Or.inl (ltt h1 h2)
    · exact Or.inl (by rw [← e2]; exact h1)
    · exact Or.inl (by rw [e1]; exact h2)
    · exact Or.inr (e1.trans e2)⟩

instance : IsTotal Row RowCaseLE :=
  ⟨fun a b => by
    have tri : ∀ (x y : Option String), OptStrLT x y ∨ x = y ∨ OptStrLT y x := by
      intro x y
      match x, y with
      | some u, some v =>
        rcases lt_trichotomy u v with h | h | h
        · exact Or.inl h
        · exact Or.inr (Or.inl (by rw [h]))
        · exact Or.inr (Or.inr h)
      | some _, none => exact Or.inl trivial
      | none, some _ => exact Or.inr (Or.inr trivial)
      | none, none => exact Or.inr (Or.inl rfl)
    rcases tri a.case_id b.case_id with h | h | h
    · exact Or.inl (Or.inl h)
    · exact Or.inl (Or.inr h)
    · exact Or.inr (Or.inl h)⟩

/-! ### First-seen deduplication

Both `collections.Counter` (a dict) and the hash table behind
`Series.value_counts` enumerate their keys in insertion order, i.e. in the
order each distinct key is first seen in the traversal. -/

/-- Distinct elements of a list, in order of first occurrence. -/
def firstSeen {α : Type} [DecidableEq α] : List α → List α
  | [] => []
  | a :: l => a :: (firstSeen l).filter (fun b => decide (b ≠ a))

/-! ### Output structures -/

/-- One entry of `graph.nodes`: `{"id": step, "count": int(count)}`. -/
structure Node where
  id : String
  count : Nat
deriving DecidableEq, Repr

/-- One entry of `graph.edges`: `{"from": src, "to": dst, "count": int(count)}`.
Edge endpoints may be null because a null `step` cell flows into the pairs. -/
structure Edge where
  fromStep : Option String
  toStep : Option String
  count : Nat
deriving DecidableEq, Repr

/-- The `stats` record assembled by `analyze_dataframe`. -/
structure Stats where
  num_cases : Nat
  num_events : Nat
  num_steps : Nat
  num_transitions : Nat
deriving DecidableEq, Repr

/-- The `cycle_time` record of the KPI result; fields are null when zero cases
carry a usable timestamp. -/
structure CycleTime where
  avg_hours : Option ℚ
  min_hours : Option ℚ
  max_hours : Option ℚ
deriving DecidableEq, Repr

/-- One entry of `steps_duration`. -/
structure StepDur where
  step : String
  avg_hours : ℚ
  count : Nat
deriving DecidableEq, Repr

/-- One entry of `transitions_duration`. -/
structure TransDur where
  fromStep : String
  toStep : String
  avg_hours : ℚ
  count : Nat
deriving DecidableEq, Repr

/-- Result of `compute_kpis`: either the bare `{"has_timestamp": False}` dict
or the full structure with `has_timestamp = True`. -/
inductive Kpi where
  | noTimestamp : Kpi
  | withTimestamp (cycle_time : CycleTime) (steps_duration slowest_steps : List StepDur)
      (transitions_duration slowest_transitions : List TransDur) : Kpi
deriving DecidableEq, Repr

structure Graph where
  nodes : List Node
  edges : List Edge
deriving DecidableEq, Repr

structure AnalysisResult where
  stats : Stats
  graph : Graph
  kpi : Kpi
deriving DecidableEq, Repr

/-- The `ValueError` raised on a bad schema; the spec names it `SchemaError`. -/
inductive AnalyzeError where
  | schemaError (msg : String)
deriving DecidableEq, Repr

deriving instance DecidableEq for Except

/-- Message of the `ValueError` raised by `analyze_dataframe` (quotes of the
original French message dropped). -/
def requiredColsMsg : String :=
  "Le DataFrame doit contenir au moins case_id et step."

/-! ### Numeric helpers -/

/-- Python `round` rounds half to even; modelled over exact rationals. -/
def roundHalfEven (q : ℚ) : Int :=
  let f : Int := ⌊q⌋
  let frac : ℚ := q - (f : ℚ)
  if frac < 1 / 2 then f
  else if 1 / 2 < frac then f + 1
  else if f % 2 = 0 then f else f + 1

/-- `round(x, 2)` of the source. -/
def round2 (q : ℚ) : ℚ := (roundHalfEven (q * 100) : ℚ) / 100

/-- Mean of a list of rationals (`.mean()` on a non-empty group). -/
def ratMean (l : List ℚ) : ℚ := l.sum / (l.length : ℚ)

def ratMinD : List ℚ → ℚ
  | [] => 0
  | a :: l => l.foldl min a

def ratMaxD : List ℚ → ℚ
  | [] => 0
  | a :: l => l.foldl max a

def intMinD : List Int → Int
  | [] => 0
  | a :: l => l.foldl min a

def intMaxD : List Int → Int
  | [] => 0
  | a :: l => l.foldl max a

/-! ### Grouping helpers -/

/-- `df.dropna(subset=["timestamp"])`: keep rows with a usable timestamp. -/
def usableRows (rows : List Row) : List Row := rows.filter (fun r => r.ts.isSome)

/-- The rows of one `groupby("case_id")` group, in DataFrame order. -/
def caseSeq (rows : List Row) (c : String) : List Row :=
  rows.filter (fun r => r.case_id == some c)

/-- Ascending sort of group keys (`groupby` sorts its keys). -/
def strAsc (l : List String) : List String := l.insertionSort (· ≤ ·)

/-- Keys of `groupby("case_id")`: distinct non-null case ids, ascending (null
keys are dropped by pandas `groupby`). -/
def caseKeys (rows : List Row) : List String :=
  strAsc (firstSeen (rows.filterMap Row.case_id))

/-! ### compute_kpis -/

/-- Per-case cycle time `(max - min).total_seconds() / 3600` in hours,
computed from the usable timestamps of the group regardless of their order. -/
def cycleDeltaHours (rows : List Row) (c : String) : ℚ :=
  let ts := (caseSeq rows c).filterMap Row.ts
  ((intMaxD ts - intMinD ts : Int) : ℚ) / 3600

/-- The `delta_hours` column per case: `cycle["delta_hours"]` over the sorted
group keys. -/
def cycleHoursList (rows : List Row) : List ℚ :=
  (caseKeys rows).map (cycleDeltaHours rows)

/-- One row of the gap table: the `step`, `next_step` and `delta_hours`
columns for a row that has a following event in its case. -/
structure Gap where
  step : Option String
  next_step : Option String
  delta_hours : ℚ
deriving DecidableEq, Repr

/-- Gaps of one case: `shift(-1)` pairs each row of the group with the next
row of the same group; rows without a successor get a null delta and never
reach the aggregates, so only consecutive pairs are produced. -/
def caseGaps (rows : List Row) (c : String) : List Gap :=
  let g := caseSeq rows c
  (g.zip g.tail).map (fun p =>
    { step := p.1.step, next_step := p.2.step,
      delta_hours := ((p.2.ts.getD 0 - p.1.ts.getD 0 : Int) : ℚ) / 3600 })

/-- `df.sort_values(["case_id", "timestamp"])` inside `compute_kpis`, applied
after the `dropna`. -/
def kpiSorted (rows : List Row) : List Row :=
  (usableRows rows).insertionSort RowTsLE

/-- All defined gaps: rows with a non-null `next_timestamp` (rows with a null
case id belong to no group and get a null delta, hence are absent). -/
def allGaps (rows : List Row) : List Gap :=
  (caseKeys (kpiSorted rows)).flatMap (caseGaps (kpiSorted rows))

/-- `df[mask]` with `mask = delta_hours.notna() & (delta_hours >= 0)`:
the rows of `df_dur`. -/
def includedGaps (rows : List Row) : List Gap :=
  (allGaps rows).filter (fun g => decide (0 ≤ g.delta_hours))

/-- Descending-by-mean order used by `sort_values("mean", ascending=False)`
on the per-step aggregate (single-key, default unstable kind; modelled
stable, equal-mean tie order not relied upon by any theorem). -/
def StepMeanDescLE (a b : String × Nat × ℚ) : Prop := b.2.2 ≤ a.2.2

instance : DecidableRel StepMeanDescLE := fun a b =>
  inferInstanceAs (Decidable (b.2.2 ≤ a.2.2))

/-- Ascending lexicographic order on the two-column group key of
`groupby(["step", "next_step"])`. -/
def PairStrLE (a b : String × String) : Prop :=
  a.1 < b.1 ∨ (a.1 = b.1 ∧ a.2 ≤ b.2)

instance : DecidableRel PairStrLE := fun a b =>
  inferInstanceAs (Decidable (a.1 < b.1 ∨ (a.1 = b.1 ∧ a.2 ≤ b.2)))

def pairAsc (l : List (String × String)) : List (String × String) :=
  l.insertionSort PairStrLE

/-- Descending-by-mean order on the per-transition aggregate (single-key,
default unstable kind; modelled stable, equal-mean tie order not relied upon
by any theorem). -/
def TransMeanDescLE (a b : (String × String) × Nat × ℚ) : Prop := b.2.2 ≤ a.2.2

instance : DecidableRel TransMeanDescLE := fun a b =>
  inferInstanceAs (Decidable (b.2.2 ≤ a.2.2))

/-- `steps_duration`: group `df_dur` by `step` (null keys dropped, keys
ascending), aggregate count and mean, sort by mean descending, round. -/
def stepDurations (rows : List Row) : List StepDur :=
  let gl := includedGaps rows
  let keys := strAsc (firstSeen (gl.filterMap Gap.step))
  let agg := keys.map (fun s =>
    let ds := (gl.filter (fun g => g.step == some s)).map Gap.delta_hours
    (s, ds.length, ratMean ds))
  (agg.insertionSort StepMeanDescLE).map
    (fun x => { step := x.1, avg_hours := round2 x.2.2, count := x.2.1 })

/-- The two-column group key of a gap row; null when either column is null
(pandas drops such rows from the grouped aggregate). -/
def gapPairKey (g : Gap) : Option (String × String) :=
  match g.step, g.next_step with
  | some a, some b => some (a, b)
  | _, _ => none

/-- `transitions_duration`: group `df_dur` by `(step, next_step)`. -/
def transDurations (rows : List Row) : List TransDur :=
  let gl := includedGaps rows
  let keys := pairAsc (firstSeen (gl.filterMap gapPairKey))
  let agg := keys.map (fun p =>
    let ds := (gl.filter (fun g => gapPairKey g == some p)).map Gap.delta_hours
    (p, ds.length, ratMean ds))
  (agg.insertionSort TransMeanDescLE).map
    (fun x => { fromStep := x.1.1, toStep := x.1.2,
                avg_hours := round2 x.2.2, count := x.2.1 })

/-- The `cycle_time` record: aggregate the per-case `delta_hours`; when the
grouped table is empty every field is null instead of a division fault. -/
def cycleTimeOf (dfv : List Row) : CycleTime :=
  if 0 < (cycleHoursList dfv).length then
    { avg_hours := some (round2 (ratMean (cycleHoursList dfv))),
      min_hours := some (round2 (ratMinD (cycleHoursList dfv))),
      max_hours := some (round2 (ratMaxD (cycleHoursList dfv))) }
  else { avg_hours := none, min_hours := none, max_hours := none }

/-- `compute_kpis(events)`; the first argument records whether the DataFrame
has a `timestamp` column. -/
def computeKpis (hasTs : Bool) (rows : List Row) : Kpi :=
  if hasTs = false then Kpi.noTimestamp
  else if rows.all (fun r => r.ts.isNone) then Kpi.noTimestamp
  else
    Kpi.withTimestamp (cycleTimeOf (usableRows rows))
      (stepDurations rows) ((stepDurations rows).take 3)
      (transDurations rows) ((transDurations rows).take 3)

/-! ### analyze_dataframe -/

/-- The sort step of `analyze_dataframe`: with a timestamp column, sort by
`["case_id", "timestamp"]` (two keys: stable `np.lexsort`), else by
`["case_id"]` alone.  Caveat: the single-key branch runs with the pandas
default unstable `kind="quicksort"`, so the source gives no guarantee on the
relative order of rows with equal `case_id`; the embedding fixes that tie
order to the stable choice, and no theorem below relies on it. -/
def normalizeRows (t : Table) : List Row :=
  if t.hasTimestamp then t.rows.insertionSort RowTsLE
  else t.rows.insertionSort RowCaseLE

/-- Distinct non-null step labels in first-seen order: the keys of
`events["step"].value_counts()` before its descending sort. -/
def stepLabels (rows : List Row) : List String :=
  firstSeen (rows.filterMap Row.step)

/-- Number of events carrying a given step label. -/
def countOfStep (rows : List Row) (s : String) : Nat :=
  rows.countP (fun r => r.step == some s)

/-- Descending-by-count order of the sort inside `value_counts`.  That sort
is `Series.sort_values` with the pandas default unstable `kind="quicksort"`,
so the source fixes no order among equal counts; the embedding sorts stably
(ties in first-seen order) to stay executable, and no theorem below relies
on the tie order. -/
def CountDescLE (a b : String × Nat) : Prop := b.2 ≤ a.2

instance : DecidableRel CountDescLE := fun a b =>
  inferInstanceAs (Decidable (b.2 ≤ a.2))

instance : IsTrans (String × Nat) CountDescLE :=
  ⟨fun _ _ _ h1 h2 => le_trans h2 h1⟩

instance : IsTotal (String × Nat) CountDescLE :=
  ⟨fun a b => (Nat.le_total b.2 a.2).imp id id⟩

/-- `events["step"].value_counts()` as a list of (label, count) pairs. -/
def stepCountsSorted (rows : List Row) : List (String × Nat) :=
  ((stepLabels rows).map (fun s => (s, countOfStep rows s))).insertionSort CountDescLE

/-- `graph.nodes`. -/
def buildNodes (rows : List Row) : List Node :=
  (stepCountsSorted rows).map (fun x => { id := x.1, count := x.2 })

/-- The consecutive step pairs contributed by one case:
`zip(steps_seq, steps_seq[1:])`. -/
def caseEdgeObs (rows : List Row) (c : String) : List (Option String × Option String) :=
  let s := (caseSeq rows c).map Row.step
  s.zip s.tail

/-- All edge observations, case by case in `groupby` key order. -/
def edgeObs (rows : List Row) : List (Option String × Option String) :=
  (caseKeys rows).flatMap (caseEdgeObs rows)

/-- `graph.edges`: the `Counter` items in insertion (first-seen) order, each
with the number of observations equal to its key. -/
def buildEdges (rows : List Row) : List Edge :=
  (firstSeen (edgeObs rows)).map
    (fun e => { fromStep := e.1, toStep := e.2,
                count := (edgeObs rows).countP (fun x => decide (x = e)) })

/-- `events["case_id"].nunique()`: distinct non-null case ids. -/
def numCases (rows : List Row) : Nat :=
  (firstSeen (rows.filterMap Row.case_id)).length

/-- The `stats` record. -/
def buildStats (rows : List Row) : Stats :=
  { num_cases := numCases rows,
    num_events := rows.length,
    num_steps := (stepCountsSorted rows).length,
    num_transitions := (buildEdges rows).length }

/-- `analyze_dataframe(df)`: schema check, normalization, stats, graph, KPI. -/
def analyze (t : Table) : Except AnalyzeError AnalysisResult :=
  if t.hasCaseId && t.hasStep then
    let events := normalizeRows t
    Except.ok
      { stats := buildStats events,
        graph := { nodes := buildNodes events, edges := buildEdges events },
        kpi := computeKpis t.hasTimestamp events }
  else Except.error (AnalyzeError.schemaError requiredColsMsg)

/-! ### Concrete inputs used by the claim witnesses and counterexamples -/

/-- A table whose `step` column is missing. -/
def tNoStep : Table := ⟨true, false, false, []⟩

/-- Two single-row cases given in descending case order: normalization
reverses them, so first-seen label order differs between the raw input and
the normalized table. -/
def tCaseSwap : Table :=
  ⟨true, true, false, [⟨some "b", some "X", none⟩, ⟨some "a", some "Y", none⟩]⟩

/-- `analyze tCaseSwap` in full. -/
def rCaseSwap : AnalysisResult :=
  ⟨⟨2, 2, 2, 0⟩, ⟨[⟨"Y", 1⟩, ⟨"X", 1⟩], []⟩, Kpi.noTimestamp⟩

/-- The end-to-end example table of the specification, with hours rendered as
epoch seconds. -/
def tExample : Table :=
  ⟨true, true, true,
    [⟨some "1", some "submit", some 0⟩,
     ⟨some "1", some "review", some 7200⟩,
     ⟨some "1", some "approve", some 18000⟩,
     ⟨some "2", some "submit", some 0⟩,
     ⟨some "2", some "review", some 3600⟩]⟩

/-- `analyze tExample` in full. -/
def rExample : AnalysisResult :=
  ⟨⟨2, 5, 3, 2⟩,
   ⟨[⟨"submit", 2⟩, ⟨"review", 2⟩, ⟨"approve", 1⟩],
    [⟨some "submit", some "review", 2⟩, ⟨some "review", some "approve", 1⟩]⟩,
   Kpi.withTimestamp ⟨some 3, some 1, some 5⟩
     [⟨"review", 3, 1⟩, ⟨"submit", 3 / 2, 2⟩]
     [⟨"review", 3, 1⟩, ⟨"submit", 3 / 2, 2⟩]
     [⟨"review", "approve", 3, 1⟩, ⟨"submit", "review", 3 / 2, 2⟩]
     [⟨"review", "approve", 3, 1⟩, ⟨"submit", "review", 3 / 2, 2⟩]⟩

/-- One case whose two timestamps go backward: `[t0, t0 - 1h]`. -/
def rowsBackward : List Row :=
  [⟨some "c", some "a", some 0⟩, ⟨some "c", some "b", some (-3600)⟩]

/-- A table whose only timestamp cell is unparsable. -/
def tAllNaT : Table := ⟨true, true, true, [⟨some "c", some "a", none⟩]⟩

/-- `analyze tAllNaT` in full. -/
def rAllNaT : AnalysisResult :=
  ⟨⟨1, 1, 1, 0⟩, ⟨[⟨"a", 1⟩], []⟩, Kpi.noTimestamp⟩

/-- A single-event case without timestamps. -/
def tSingle : Table := ⟨true, true, false, [⟨some "c", some "a", none⟩]⟩

/-- `analyze tSingle` in full. -/
def rSingle : AnalysisResult :=
  ⟨⟨1, 1, 1, 0⟩, ⟨[⟨"a", 1⟩], []⟩, Kpi.noTimestamp⟩

/-- One case with two events and no timestamp column. -/
def tPair : Table :=
  ⟨true, true, false, [⟨some "c", some "a", none⟩, ⟨some "c", some "b", none⟩]⟩

/-- `analyze tPair` in full. -/
def rPair : AnalysisResult :=
  ⟨⟨1, 2, 2, 1⟩, ⟨[⟨"a", 1⟩, ⟨"b", 1⟩], [⟨some "a", some "b", 1⟩]⟩, Kpi.noTimestamp⟩

/-- A usable timestamp on a row whose case id is null. -/
def rowsNullCase : List Row := [⟨none, some "a", some 0⟩]

/-- A usable timestamp on a row with a non-null case id. -/
def rowsOneCase : List Row := [⟨some "c", some "a", some 0⟩]

/-! ### Helper lemmas -/

theorem mem_firstSeen {α : Type} [DecidableEq α] (a : α) :
    ∀ (l : List α), a ∈ firstSeen l ↔ a ∈ l
  | [] => Iff.rfl
  | x :: l => by
    simp only [firstSeen, List.mem_cons, List.mem_filter, mem_firstSeen a l,
      decide_eq_true_eq]
    by_cases h : a = x
    · simp [h]
    · simp [h]

theorem nodup_firstSeen {α : Type} [DecidableEq α] :
    ∀ (l : List α), (firstSeen l).Nodup
  | [] => List.nodup_nil
  | x :: l => by
    refine List.nodup_cons.mpr ⟨fun hx => ?_, (nodup_firstSeen l).filter _⟩
    have := (List.mem_filter.mp hx).2
    simp at this

/-- Summing the multiplicity of each distinct element recovers the length. -/
theorem sum_count_firstSeen {α : Type} [DecidableEq α] (l : List α) :
    ((firstSeen l).map (fun a => l.count a)).sum = l.length := by
  have hfin : (firstSeen l).toFinset = l.toFinset := by
    ext a
    simp [List.mem_toFinset, mem_firstSeen]
  calc ((firstSeen l).map (fun a => l.count a)).sum
      = (firstSeen l).toFinset.sum (fun a => l.count a) :=
        (List.sum_toFinset _ (nodup_firstSeen l)).symm
    _ = l.toFinset.sum (fun a => l.count a) := by rw [hfin]
    _ = l.length := List.sum_toFinset_count_eq_length l

/-- Variant of `sum_count_firstSeen` with an instance-free counting
predicate. -/
theorem sum_countP_firstSeen {α : Type} [DecidableEq α] (l : List α) :
    ((firstSeen l).map (fun a => l.countP (fun x => decide (x = a)))).sum =
      l.length := by
  have h : ∀ a : α, l.countP (fun x => decide (x = a)) = l.count a := by
    intro a
    apply List.countP_congr
    intro x _
    simp
  rw [List.map_congr_left (fun a _ => h a)]
  exact sum_count_firstSeen l

/-- The normalization step only reorders the rows. -/
theorem normalizeRows_perm (t : Table) : (normalizeRows t).Perm t.rows := by
  unfold normalizeRows
  split <;> exact List.perm_insertionSort _ _

/-- Inversion of a successful `analyze` call. -/
theorem analyze_ok (t : Table) (r : AnalysisResult) (h : analyze t = Except.ok r) :
    (t.hasCaseId && t.hasStep) = true ∧
    r = { stats := buildStats (normalizeRows t),
          graph := { nodes := buildNodes (normalizeRows t),
                     edges := buildEdges (normalizeRows t) },
          kpi := computeKpis t.hasTimestamp (normalizeRows t) } := by
  unfold analyze at h
  by_cases hc : (t.hasCaseId && t.hasStep) = true
  · rw [if_pos hc] at h
    injection h with h
    exact ⟨hc, h.symm⟩
  · rw [if_neg hc] at h
    exact Except.noConfusion h

/-- Counting the rows whose projected field equals a value is counting that
value among the projected non-null field values. -/
theorem countP_eq_count_filterMap {α β : Type} [DecidableEq β]
    (f : α → Option β) (l : List α) (b : β) :
    l.countP (fun x => f x == some b) = (l.filterMap f).count b := by
  induction l with
  | nil => rfl
  | cons a rest ih =>
    rw [List.countP_cons, List.filterMap_cons]
    cases hfa : f a with
    | none => simp [ih]
    | some v =>
      by_cases hv : v = b
      · subst hv
        simp [List.count_cons, ih]
      · simp [List.count_cons, ih, hv]

/-- A `filterMap` by an everywhere-defined projection keeps the length. -/
theorem length_filterMap_all_isSome {α β : Type} (f : α → Option β) (l : List α)
    (h : ∀ x ∈ l, (f x).isSome = true) : (l.filterMap f).length = l.length := by
  induction l with
  | nil => rfl
  | cons a rest ih =>
    rw [List.filterMap_cons]
    cases hfa : f a with
    | none =>
      exact absurd (h a (by simp)) (by rw [hfa]; simp)
    | some b =>
      simp only [List.length_cons]
      rw [ih (fun x hx => h x (by simp [hx]))]

/-- Splitting `sum (f - 1)` against `sum f` over a list of nonempty groups. -/
theorem sum_map_sub_one {α : Type} (l : List α) (f : α → Nat)
    (h : ∀ a ∈ l, 1 ≤ f a) :
    (l.map (fun a => f a - 1)).sum + l.length = (l.map f).sum := by
  induction l with
  | nil => rfl
  | cons a rest ih =>
    simp only [List.map_cons, List.sum_cons, List.length_cons]
    have ha := h a (by simp)
    have hr := ih (fun x hx => h x (by simp [hx]))
    omega

/-- In a pairwise-related list, consecutive elements are related. -/
theorem pairwise_rel_zip_tail {α : Type} {R : α → α → Prop} :
    ∀ {l : List α}, l.Pairwise R → ∀ p ∈ l.zip l.tail, R p.1 p.2
  | [], _, p, hp => absurd hp (by simp)
  | [a], _, p, hp => absurd hp (by simp)
  | _ :: b :: _, h, p, hp => by
    rcases List.pairwise_cons.mp h with ⟨hhead, htail⟩
    rw [show ∀ x y (l2 : List α), (x :: y :: l2).tail = y :: l2 from fun _ _ _ => rfl,
      List.zip_cons_cons, List.mem_cons] at hp
    rcases hp with hp | hp
    · subst hp
      exact hhead b (List.mem_cons_self b _)
    · exact pairwise_rel_zip_tail htail p hp

/-! ### C1 -/

/-- C1: for every input table missing the `case_id` column or the `step`
column, `analyze` fails with the schema error and produces no partial result:
the returned value is the bare error, carrying no stats, graph or kpi. -/
theorem c1_schema_rejection (t : Table)
    (h : t.hasCaseId = false ∨ t.hasStep = false) :
    analyze t = Except.error (AnalyzeError.schemaError requiredColsMsg) := by
  unfold analyze
  rcases h with h | h <;> simp [h]

theorem c1_schema_rejection_witness :
    analyze tNoStep = Except.error (AnalyzeError.schemaError requiredColsMsg) :=
  c1_schema_rejection tNoStep (Or.inr rfl)

/-! ### C6 -/

/-- C6: for every table with both required columns, the KPI computation
returns exactly `{has_timestamp: false}` (a normal return, never an
exception) if and only if no usable timestamp exists anywhere in the log:
there is no timestamp column, or every cell of it fails to parse. -/
theorem c6_no_timestamp_degeneration (t : Table) (r : AnalysisResult)
    (h1 : t.hasCaseId = true) (h2 : t.hasStep = true)
    (h : analyze t = Except.ok r) :
    r.kpi = Kpi.noTimestamp ↔
      (t.hasTimestamp = false ∨ ∀ row ∈ t.rows, row.ts = none) := by
  obtain ⟨-, hr⟩ := analyze_ok t r h
  have hmem : ∀ row : Row, row ∈ normalizeRows t ↔ row ∈ t.rows :=
    fun row => (normalizeRows_perm t).mem_iff
  have hall : (normalizeRows t).all (fun row => row.ts.isNone) = true ↔
      ∀ row ∈ t.rows, row.ts = none := by
    rw [List.all_eq_true]
    constructor
    · intro hx row hrow
      exact Option.isNone_iff_eq_none.mp (hx row ((hmem row).mpr hrow))
    · intro hx row hrow
      exact Option.isNone_iff_eq_none.mpr (hx row ((hmem row).mp hrow))
  subst hr
  show computeKpis t.hasTimestamp (normalizeRows t) = Kpi.noTimestamp ↔ _
  unfold computeKpis
  cases htscol : t.hasTimestamp
  · simp
  · rw [if_neg (by simp)]
    by_cases hx : (normalizeRows t).all (fun row => row.ts.isNone) = true
    · rw [if_pos hx]
      exact iff_of_true rfl (Or.inr (hall.mp hx))
    · rw [if_neg hx]
      refine iff_of_false (fun hk => Kpi.noConfusion hk) ?_
      rintro (hk | hk)
      · exact Bool.noConfusion hk
      · exact hx (hall.mpr hk)

theorem c6_no_timestamp_degeneration_witness :
    rAllNaT.kpi = Kpi.noTimestamp ↔
      (tAllNaT.hasTimestamp = false ∨ ∀ row ∈ tAllNaT.rows, row.ts = none) :=
  c6_no_timestamp_degeneration tAllNaT rAllNaT rfl rfl rfl

/-! ### C10 -/

/-- C10 counterexample: on a single row whose case id is null but whose
timestamp is usable, `compute_kpis` returns `has_timestamp = true` with all
three cycle-time fields null — the null fallback branch is reachable. -/
theorem c10_counterexample :
    ¬ (∀ ct sd ss td st, computeKpis true rowsNullCase =
          Kpi.withTimestamp ct sd ss td st →
        ct.avg_hours.isSome = true ∧ ct.min_hours.isSome = true ∧
          ct.max_hours.isSome = true) := by
  intro h
  have := h ⟨none, none, none⟩ [] [] [] [] (by decide)
  simp at this

/-- C10 amended: whenever the KPI computation is run on a log with a
timestamp column and at least one row has both a non-null case id and a
usable timestamp, the result is the full structure and the three cycle-time
fields are non-null.  (The unamended claim fails when every usable timestamp
sits on a row with a null case id, because `groupby` drops null keys.) -/
theorem c10_cycle_time_nonnull (hasTs : Bool) (rows : List Row)
    (hts : hasTs = true)
    (h : ∃ row ∈ rows, row.case_id.isSome = true ∧ row.ts.isSome = true) :
    ∃ ct sd ss td st, computeKpis hasTs rows = Kpi.withTimestamp ct sd ss td st ∧
      ct.avg_hours.isSome = true ∧ ct.min_hours.isSome = true ∧
      ct.max_hours.isSome = true := by
  subst hts
  obtain ⟨row, hrow, hcase, hts2⟩ := h
  have hnall : ¬ ((rows.all (fun r => r.ts.isNone)) = true) := by
    rw [List.all_eq_true]
    intro hx
    have := hx row hrow
    rw [Option.isNone_iff_eq_none] at this
    rw [this] at hts2
    exact Bool.noConfusion hts2
  have hlen : 0 < (cycleHoursList (usableRows rows)).length := by
    obtain ⟨c, hc⟩ := Option.isSome_iff_exists.mp hcase
    have hurow : row ∈ usableRows rows := by
      unfold usableRows
      rw [List.mem_filter]
      exact ⟨hrow, hts2⟩
    have hcmem : c ∈ caseKeys (usableRows rows) := by
      unfold caseKeys strAsc
      rw [(List.perm_insertionSort _ _).mem_iff, mem_firstSeen, List.mem_filterMap]
      exact ⟨row, hurow, hc⟩
    unfold cycleHoursList
    rw [List.length_map]
    exact List.length_pos_of_mem hcmem
  unfold computeKpis
  rw [if_neg (by simp), if_neg hnall]
  refine ⟨_, _, _, _, _, rfl, ?_, ?_, ?_⟩ <;>
    · unfold cycleTimeOf
      rw [if_pos hlen]
      rfl

theorem c10_cycle_time_nonnull_witness :
    ∃ ct sd ss td st, computeKpis true rowsOneCase = Kpi.withTimestamp ct sd ss td st ∧
      ct.avg_hours.isSome = true ∧ ct.min_hours.isSome = true ∧
      ct.max_hours.isSome = true :=
  c10_cycle_time_nonnull true rowsOneCase rfl (by decide)

/-! ### C5 -/

/-- C5 counterexample: a case with timestamps `[t0, t0 - 1h]` yields ONE
included duration sample (of one hour), not zero: `compute_kpis` re-sorts
each case by timestamp before differencing, so the backward pair becomes a
forward one-hour gap.  The one-hour cycle time part of the claim does hold. -/
theorem c5_counterexample :
    computeKpis true rowsBackward =
      Kpi.withTimestamp ⟨some 1, some 1, some 1⟩
        [⟨"b", 1, 1⟩] [⟨"b", 1, 1⟩]
        [⟨"b", "a", 1, 1⟩] [⟨"b", "a", 1, 1⟩] ∧
    transDurations rowsBackward ≠ [] := by
  exact ⟨by with_unfolding_all decide, by with_unfolding_all decide⟩

/-- C5 amended: a duration gap is included in the step and transition
aggregates if and only if it is defined (the event is not the last of its
case); because `compute_kpis` sorts every case by timestamp before taking
differences, no gap is ever negative and the non-negativity filter excludes
nothing.  Cycle time is still computed from the min and max of the usable
timestamps of the case regardless of their original order; in particular a
case with timestamps `[t0, t0 - 1h]` yields one 1-hour duration sample and a
1-hour cycle time (see the counterexample evaluation). -/
theorem c5_duration_gap_filter (rows : List Row) :
    includedGaps rows = allGaps rows ∧
    ∀ g ∈ allGaps rows, 0 ≤ g.delta_hours := by
  have hpos : ∀ g ∈ allGaps rows, 0 ≤ g.delta_hours := by
    intro g hg
    unfold allGaps at hg
    rw [List.mem_flatMap] at hg
    obtain ⟨c, hc, hgc⟩ := hg
    unfold caseGaps at hgc
    rw [List.mem_map] at hgc
    obtain ⟨p, hp, hgp⟩ := hgc
    have hsorted : (kpiSorted rows).Pairwise RowTsLE := by
      unfold kpiSorted
      exact List.sorted_insertionSort RowTsLE (usableRows rows)
    have hseq : (caseSeq (kpiSorted rows) c).Pairwise RowTsLE :=
      hsorted.sublist (List.filter_sublist _)
    have hrel : RowTsLE p.1 p.2 := pairwise_rel_zip_tail hseq p hp
    have hp1 : p.1 ∈ caseSeq (kpiSorted rows) c := by
      have := List.of_mem_zip (by simpa using hp)
      exact this.1
    have hp2 : p.2 ∈ caseSeq (kpiSorted rows) c := by
      have := List.of_mem_zip (by simpa using hp)
      exact (List.tail_sublist _).subset this.2
    have hc1 : p.1.case_id = some c := by
      have := (List.mem_filter.mp hp1).2
      simpa using this
    have hc2 : p.2.case_id = some c := by
      have := (List.mem_filter.mp hp2).2
      simpa using this
    have hus : ∀ q : Row, q ∈ caseSeq (kpiSorted rows) c → q.ts.isSome = true := by
      intro q hq
      have hq2 : q ∈ kpiSorted rows := (List.mem_filter.mp hq).1
      have hq3 : q ∈ usableRows rows := by
        unfold kpiSorted at hq2
        exact (List.perm_insertionSort _ _).subset hq2
      exact (List.mem_filter.mp hq3).2
    obtain ⟨t1, ht1⟩ := Option.isSome_iff_exists.mp (hus p.1 hp1)
    obtain ⟨t2, ht2⟩ := Option.isSome_iff_exists.mp (hus p.2 hp2)
    have hle : t1 ≤ t2 := by
      rcases hrel with hlt | ⟨-, hle⟩
      · rw [hc1, hc2] at hlt
        exact absurd (show c < c from hlt) (lt_irrefl c)
      · rw [ht1, ht2] at hle
        exact hle
    have hdelta : g.delta_hours = ((t2 - t1 : Int) : ℚ) / 3600 := by
      rw [← hgp, ht1, ht2]
      rfl
    rw [hdelta]
    have : (0 : ℚ) ≤ ((t2 - t1 : Int) : ℚ) := by
      rw [Int.cast_nonneg]
      omega
    positivity
  refine ⟨?_, hpos⟩
  unfold includedGaps
  rw [List.filter_eq_self]
  intro g hg
  exact decide_eq_true (hpos g hg)

/-! ### C3 -/

/-- C3 counterexample: with input rows `[(case b, step X), (case a, step Y)]`
the labels X and Y are tied at count 1 and X is first seen in the raw input,
but the returned nodes are `[Y, X]`: `value_counts` runs on the case-sorted
table, so ties follow first-seen order of the NORMALIZED table, not of the
raw input. -/
theorem c3_counterexample :
    ¬ (∀ (r : AnalysisResult), analyze tCaseSwap = Except.ok r →
        ∀ s1 s2 : String, [s1, s2] <+ stepLabels tCaseSwap.rows →
          countOfStep tCaseSwap.rows s1 = countOfStep tCaseSwap.rows s2 →
          [s1, s2] <+ r.graph.nodes.map Node.id) := by
  intro h
  have := h rCaseSwap (by with_unfolding_all decide) "X" "Y" (by decide) (by decide)
  revert this
  decide

/-- C3 amended: `graph.nodes` holds exactly one node per distinct non-null
step label of the normalized log, carrying that label's occurrence count, and
the list is sorted by descending count.  The relative order of equal-count
nodes is implementation-defined (the sort inside `value_counts` is the
unstable pandas default) — in particular it is NOT the first-seen order of
the raw input, as the counterexample shows.  Both conjuncts proved here are
insensitive to how the sort breaks ties: they hold of every correct
descending sorting of the same aggregate. -/
theorem c3_node_sort_contract (t : Table) (r : AnalysisResult)
    (h : analyze t = Except.ok r) :
    r.graph.nodes.Pairwise (fun a b => b.count ≤ a.count) ∧
    r.graph.nodes.Perm ((stepLabels (normalizeRows t)).map
      (fun s => ({ id := s, count := countOfStep (normalizeRows t) s } : Node))) := by
  obtain ⟨-, hr⟩ := analyze_ok t r h
  subst hr
  constructor
  · show (buildNodes (normalizeRows t)).Pairwise _
    unfold buildNodes
    rw [List.pairwise_map]
    exact List.sorted_insertionSort CountDescLE _
  · show (buildNodes (normalizeRows t)).Perm _
    unfold buildNodes stepCountsSorted
    have hp := (List.perm_insertionSort CountDescLE
      ((stepLabels (normalizeRows t)).map
        (fun s => (s, countOfStep (normalizeRows t) s)))).map
      (fun x : String × Nat => ({ id := x.1, count := x.2 } : Node))
    rw [List.map_map] at hp
    exact hp

theorem c3_node_sort_contract_witness :
    rCaseSwap.graph.nodes.Pairwise (fun a b => b.count ≤ a.count) ∧
    rCaseSwap.graph.nodes.Perm ((stepLabels (normalizeRows tCaseSwap)).map
      (fun s => (⟨s, countOfStep (normalizeRows tCaseSwap) s⟩ : Node))) :=
  c3_node_sort_contract tCaseSwap rCaseSwap (by with_unfolding_all decide)

/-! ### C4 -/

/-- C4: for every table with both required columns and no null `step` cells,
the node counts sum to `stats.num_events`. -/
theorem c4_count_conservation (t : Table) (r : AnalysisResult)
    (h : analyze t = Except.ok r)
    (hstep : ∀ row ∈ t.rows, row.step.isSome = true) :
    (r.graph.nodes.map Node.count).sum = r.stats.num_events := by
  obtain ⟨-, hr⟩ := analyze_ok t r h
  subst hr
  show ((buildNodes (normalizeRows t)).map Node.count).sum =
    (buildStats (normalizeRows t)).num_events
  have hstep2 : ∀ row ∈ normalizeRows t, row.step.isSome = true :=
    fun row hrow => hstep row ((normalizeRows_perm t).subset hrow)
  unfold buildNodes
  rw [List.map_map]
  have h1 : ((stepCountsSorted (normalizeRows t)).map
      (fun x : String × Nat => x.2)).sum =
      ((((stepLabels (normalizeRows t)).map
        (fun s => (s, countOfStep (normalizeRows t) s))).map
          (fun x : String × Nat => x.2))).sum :=
    ((List.perm_insertionSort _ _).map _).sum_eq
  have h2 : ((stepLabels (normalizeRows t)).map
      (fun s => countOfStep (normalizeRows t) s)).sum =
      ((normalizeRows t).filterMap Row.step).length := by
    have hc : ∀ s : String, countOfStep (normalizeRows t) s =
        ((normalizeRows t).filterMap Row.step).count s :=
      fun s => countP_eq_count_filterMap Row.step (normalizeRows t) s
    calc ((stepLabels (normalizeRows t)).map
        (fun s => countOfStep (normalizeRows t) s)).sum
        = ((stepLabels (normalizeRows t)).map
            (fun s => ((normalizeRows t).filterMap Row.step).count s)).sum := by
          rw [List.map_congr_left (fun s _ => hc s)]
      _ = ((normalizeRows t).filterMap Row.step).length :=
          sum_count_firstSeen _
  have h3 : ((normalizeRows t).filterMap Row.step).length =
      (normalizeRows t).length :=
    length_filterMap_all_isSome Row.step (normalizeRows t) hstep2
  show ((stepCountsSorted (normalizeRows t)).map
      (fun x : String × Nat => x.2)).sum = (normalizeRows t).length
  rw [h1, List.map_map]
  calc ((((stepLabels (normalizeRows t))).map
      ((fun x : String × Nat => x.2) ∘
        (fun s => (s, countOfStep (normalizeRows t) s))))).sum
      = ((stepLabels (normalizeRows t)).map
          (fun s => countOfStep (normalizeRows t) s)).sum := rfl
    _ = (normalizeRows t).length := by rw [h2, h3]

theorem c4_count_conservation_witness :
    (rExample.graph.nodes.map Node.count).sum = rExample.stats.num_events :=
  c4_count_conservation tExample rExample (by with_unfolding_all decide) (by decide)

/-! ### C7 -/

/-- C7: every case of the normalized log with `k` events contributes at most
`k - 1` edge observations; a single-event case contributes no edge while its
event still counts toward the node of its step label. -/
theorem c7_edge_bound (t : Table) (r : AnalysisResult)
    (h : analyze t = Except.ok r) (c : String) :
    (caseEdgeObs (normalizeRows t) c).length ≤
      (caseSeq (normalizeRows t) c).length - 1 ∧
    ((caseSeq (normalizeRows t) c).length = 1 →
      caseEdgeObs (normalizeRows t) c = [] ∧
      ∀ row ∈ caseSeq (normalizeRows t) c, ∀ s : String, row.step = some s →
        1 ≤ countOfStep (normalizeRows t) s ∧
        (⟨s, countOfStep (normalizeRows t) s⟩ : Node) ∈ r.graph.nodes) := by
  obtain ⟨-, hr⟩ := analyze_ok t r h
  subst hr
  constructor
  · unfold caseEdgeObs
    simp only [List.length_zip, List.length_tail, List.length_map]
    omega
  · intro hk
    constructor
    · rcases List.length_eq_one.mp hk with ⟨x, hx⟩
      unfold caseEdgeObs
      rw [hx]
      rfl
    · intro row hrow s hs
      have hrow2 : row ∈ normalizeRows t := (List.mem_filter.mp hrow).1
      constructor
      · have : 0 < countOfStep (normalizeRows t) s := by
          unfold countOfStep
          rw [List.countP_pos_iff]
          exact ⟨row, hrow2, by simp [hs]⟩
        omega
      · show _ ∈ buildNodes (normalizeRows t)
        unfold buildNodes
        rw [List.mem_map]
        refine ⟨(s, countOfStep (normalizeRows t) s), ?_, rfl⟩
        unfold stepCountsSorted
        rw [(List.perm_insertionSort _ _).mem_iff, List.mem_map]
        refine ⟨s, ?_, rfl⟩
        unfold stepLabels
        rw [mem_firstSeen, List.mem_filterMap]
        exact ⟨row, hrow2, hs⟩

theorem c7_edge_bound_witness :
    (caseEdgeObs (normalizeRows tSingle) "c").length ≤
      (caseSeq (normalizeRows tSingle) "c").length - 1 ∧
    ((caseSeq (normalizeRows tSingle) "c").length = 1 →
      caseEdgeObs (normalizeRows tSingle) "c" = [] ∧
      ∀ row ∈ caseSeq (normalizeRows tSingle) "c", ∀ s : String,
        row.step = some s →
        1 ≤ countOfStep (normalizeRows tSingle) s ∧
        (⟨s, countOfStep (normalizeRows tSingle) s⟩ : Node) ∈
          rSingle.graph.nodes) :=
  c7_edge_bound tSingle rSingle (by with_unfolding_all decide) "c"

/-! ### C9 -/

/-- C9: for every table with both required columns and no null `case_id` or
`step` cells, the edge counts sum to `num_events - num_cases`: each of the
`num_cases` groups of sizes summing to `num_events` contributes exactly one
edge observation less than its size. -/
theorem c9_edge_count_sum (t : Table) (r : AnalysisResult)
    (h : analyze t = Except.ok r)
    (hcase : ∀ row ∈ t.rows, row.case_id.isSome = true)
    (hstep : ∀ row ∈ t.rows, row.step.isSome = true) :
    (r.graph.edges.map Edge.count).sum =
      r.stats.num_events - r.stats.num_cases := by
  obtain ⟨-, hr⟩ := analyze_ok t r h
  subst hr
  have hcase2 : ∀ row ∈ normalizeRows t, row.case_id.isSome = true :=
    fun row hrow => hcase row ((normalizeRows_perm t).subset hrow)
  show ((buildEdges (normalizeRows t)).map Edge.count).sum =
    (buildStats (normalizeRows t)).num_events -
      (buildStats (normalizeRows t)).num_cases
  have h1 : ((buildEdges (normalizeRows t)).map Edge.count).sum =
      (edgeObs (normalizeRows t)).length := by
    unfold buildEdges
    rw [List.map_map]
    rw [show (Edge.count ∘ fun e : Option String × Option String =>
        ({ fromStep := e.1, toStep := e.2,
           count := (edgeObs (normalizeRows t)).countP
             (fun x => decide (x = e)) } : Edge)) =
      (fun e => (edgeObs (normalizeRows t)).countP
        (fun x => decide (x = e))) from rfl]
    exact sum_countP_firstSeen (edgeObs (normalizeRows t))
  have h2 : (edgeObs (normalizeRows t)).length =
      ((caseKeys (normalizeRows t)).map
        (fun c => (caseSeq (normalizeRows t) c).length - 1)).sum := by
    unfold edgeObs
    rw [List.length_flatMap]
    congr 1
    apply List.map_congr_left
    intro c _
    show (caseEdgeObs (normalizeRows t) c).length =
      (caseSeq (normalizeRows t) c).length - 1
    unfold caseEdgeObs
    simp only [List.length_zip, List.length_tail, List.length_map]
    omega
  have h3 : ∀ c ∈ caseKeys (normalizeRows t),
      1 ≤ (caseSeq (normalizeRows t) c).length := by
    intro c hc
    unfold caseKeys strAsc at hc
    rw [(List.perm_insertionSort _ _).mem_iff, mem_firstSeen,
      List.mem_filterMap] at hc
    obtain ⟨row, hrow, hcid⟩ := hc
    have hmem : row ∈ caseSeq (normalizeRows t) c := by
      unfold caseSeq
      rw [List.mem_filter]
      exact ⟨hrow, by simp [hcid]⟩
    have := List.length_pos_of_mem hmem
    omega
  have h4 : ((caseKeys (normalizeRows t)).map
      (fun c => (caseSeq (normalizeRows t) c).length - 1)).sum +
      (caseKeys (normalizeRows t)).length =
      ((caseKeys (normalizeRows t)).map
        (fun c => (caseSeq (normalizeRows t) c).length)).sum :=
    sum_map_sub_one _ _ h3
  have h5 : ((caseKeys (normalizeRows t)).map
      (fun c => (caseSeq (normalizeRows t) c).length)).sum =
      (normalizeRows t).length := by
    have hp : ((caseKeys (normalizeRows t)).map
        (fun c => (caseSeq (normalizeRows t) c).length)).sum =
        ((firstSeen ((normalizeRows t).filterMap Row.case_id)).map
          (fun c => (caseSeq (normalizeRows t) c).length)).sum :=
      ((List.perm_insertionSort _ _).map _).sum_eq
    rw [hp]
    have hc : ∀ c : String, (caseSeq (normalizeRows t) c).length =
        ((normalizeRows t).filterMap Row.case_id).count c := by
      intro c
      unfold caseSeq
      rw [← List.countP_eq_length_filter]
      exact countP_eq_count_filterMap Row.case_id (normalizeRows t) c
    rw [List.map_congr_left (fun c _ => hc c), sum_count_firstSeen,
      length_filterMap_all_isSome Row.case_id (normalizeRows t) hcase2]
  have h6 : (buildStats (normalizeRows t)).num_cases =
      (caseKeys (normalizeRows t)).length := by
    show numCases (normalizeRows t) = _
    unfold numCases caseKeys strAsc
    rw [List.length_insertionSort]
  have h7 : (buildStats (normalizeRows t)).num_events =
      (normalizeRows t).length := rfl
  rw [h1, h2, h6, h7]
  omega

theorem c9_edge_count_sum_witness :
    (rPair.graph.edges.map Edge.count).sum =
      rPair.stats.num_events - rPair.stats.num_cases :=
  c9_edge_count_sum tPair rPair (by with_unfolding_all decide)
    (by decide) (by decide)

end ProcessAnalyzer
